import Mathlib

/-!
Shallow embedding of the L-system library (src/src/lib.rs).

The Rust source defines a grammar type `LSystemType<T>` holding an axiom
(a `Vec<T>`, modelled as `List T`) and a production rule
(`ProductionRule<T> = fn(T) -> Vec<T>`, modelled as `T → List T`), plus a
stateful iterator `LSystemIterator<T>` whose `next` either emits the axiom
(on the first pull, guarded by the `zeroth` flag) or rewrites the current
state symbol-by-symbol, concatenating the replacement sequences in order.
Rust's `Iterator::next` returns `Option<Vec<T>>`; we model one call to
`next` as a pair of the returned `Option (List T)` and the updated
iterator state.
-/

/-- Grammar definition, embedding Rust's `LSystemType<T>` (fields `axiom`
and `rules`; the axiom field is named `ax` here because of Lean's keyword). -/
structure LSystemType (T : Type) where
  ax : List T
  rules : T → List T

/-- Iteration cursor, embedding Rust's `LSystemIterator<T>` with fields
`current_state`, `rules` and the one-shot flag `zeroth`. -/
structure LSystemIterator (T : Type) where
  current_state : List T
  rules : T → List T
  zeroth : Bool

/-- Embedding of `LSystemType::iter`: a fresh producer whose state is a copy
of the axiom, sharing the rule, with `zeroth := true`. -/
def LSystemType.iter {T : Type} (l : LSystemType T) : LSystemIterator T :=
  { current_state := l.ax, rules := l.rules, zeroth := true }

/-- Embedding of the rewriting loop in `LSystemIterator::next`: starting
from `new_state = Vec::new()`, for each element of the current state in
order, `push_all` the rule's output.  This is a left fold appending
`rules element` to the accumulator. -/
def rewriteLoop {T : Type} (rules : T → List T) (state : List T) : List T :=
  state.foldl (fun acc element => acc ++ rules element) []

/-- Embedding of `LSystemIterator::next`: if `zeroth`, clear the flag and
return the current state (generation 0); otherwise replace the state with
the rewritten sequence and return it.  The Rust method returns
`Some(...)` on every path; the updated iterator is returned alongside. -/
def LSystemIterator.next {T : Type} (it : LSystemIterator T) :
    Option (List T) × LSystemIterator T :=
  if it.zeroth then
    (some it.current_state, { it with zeroth := false })
  else
    let new_state := rewriteLoop it.rules it.current_state
    (some new_state, { it with current_state := new_state })

/-- The iterator state after `n` calls to `next` (outputs discarded). -/
def LSystemIterator.stepN {T : Type} (it : LSystemIterator T) : Nat → LSystemIterator T
  | 0 => it
  | n + 1 => ((it.stepN n).next).2

/-- The output of the `(n+1)`-st call to `next` on iterator `it`. -/
def nthOutput {T : Type} (it : LSystemIterator T) (n : Nat) : Option (List T) :=
  ((it.stepN n).next).1

/-- Generation `n` of a grammar: the result of pulling `n+1` times from a
fresh producer. -/
def genAt {T : Type} (l : LSystemType T) (n : Nat) : Option (List T) :=
  nthOutput l.iter n

/-- Mathematical description of `n` rewriting steps: `List.bind` with the
rule, iterated `n` times.  Used to relate the iterator to the claims. -/
def genFun {T : Type} (rules : T → List T) : Nat → List T → List T
  | 0, s => s
  | n + 1, s => (genFun rules n s).bind rules

/- ### Basic lemmas about the embedding -/

theorem rewriteLoop_foldl_eq {T : Type} (rules : T → List T) :
    ∀ (state acc : List T),
      state.foldl (fun a element => a ++ rules element) acc = acc ++ state.bind rules := by
  intro state
  induction state with
  | nil => intro acc; simp
  | cons x xs ih =>
      intro acc
      simp [List.foldl_cons, ih, List.bind]

theorem rewriteLoop_eq_bind {T : Type} (rules : T → List T) (state : List T) :
    rewriteLoop rules state = state.bind rules := by
  simpa using rewriteLoop_foldl_eq rules state []

theorem next_of_not_zeroth {T : Type} (it : LSystemIterator T) (h : it.zeroth = false) :
    it.next = (some (it.current_state.bind it.rules),
      { it with current_state := it.current_state.bind it.rules }) := by
  simp [LSystemIterator.next, h, rewriteLoop_eq_bind]

theorem stepN_of_not_zeroth {T : Type} (rules : T → List T) :
    ∀ (n : Nat) (s : List T),
      (LSystemIterator.mk s rules false).stepN n
        = LSystemIterator.mk (genFun rules n s) rules false := by
  intro n
  induction n with
  | zero => intro s; rfl
  | succ n ih =>
      intro s
      simp [LSystemIterator.stepN, ih s, next_of_not_zeroth, genFun]

theorem stepN_iter {T : Type} (l : LSystemType T) :
    ∀ n : Nat, l.iter.stepN (n + 1)
      = LSystemIterator.mk (genFun l.rules n l.ax) l.rules false := by
  intro n
  induction n with
  | zero =>
      simp [LSystemIterator.stepN, LSystemType.iter, LSystemIterator.next, genFun]
  | succ n ih =>
      show ((l.iter.stepN (n + 1)).next).2 = _
      rw [ih]
      simp [next_of_not_zeroth, genFun]

theorem genAt_eq {T : Type} (l : LSystemType T) (n : Nat) :
    genAt l n = some (genFun l.rules n l.ax) := by
  cases n with
  | zero => rfl
  | succ n =>
      show ((l.iter.stepN (n + 1)).next).1 = _
      rw [stepN_iter l n]
      simp [next_of_not_zeroth, genFun]

theorem genFun_append {T : Type} (rules : T → List T) :
    ∀ (n : Nat) (a b : List T),
      genFun rules n (a ++ b) = genFun rules n a ++ genFun rules n b := by
  intro n
  induction n with
  | zero => intro a b; rfl
  | succ n ih => intro a b; simp [genFun, ih a b]

/- ### The algae system (doc example at the top of lib.rs) -/

/-- Alphabet of the algae example: reproduction state `A`, growth state `B`. -/
inductive Algae where
  | A : Algae
  | B : Algae
deriving DecidableEq

/-- Rule of the algae example: `A ↦ [A, B]`, `B ↦ [A]`. -/
def algae_rule : Algae → List Algae
  | Algae.A => [Algae.A, Algae.B]
  | Algae.B => [Algae.A]

/-- The algae grammar: axiom `[B]` with `algae_rule`. -/
def algae_lsystem : LSystemType Algae :=
  { ax := [Algae.B], rules := algae_rule }

/-- Alphabet for the growth-rate scenario: a single symbol. -/
inductive Doubler where
  | A : Doubler
deriving DecidableEq

/-- The doubling grammar: axiom `[A]` with rule `A ↦ [A, A]`. -/
def doubling_lsystem : LSystemType Doubler :=
  { ax := [Doubler.A], rules := fun _ => [Doubler.A, Doubler.A] }

/- ### Two-producer world for the independence claim -/

/-- Pull once from the first of two producers, leaving the other alone. -/
def pullFst {T : Type} (p : LSystemIterator T × LSystemIterator T) :
    LSystemIterator T × LSystemIterator T :=
  ((p.1.next).2, p.2)

/-- Iterated pulls on the first producer of a pair. -/
def pullFstN {T : Type} (p : LSystemIterator T × LSystemIterator T) :
    Nat → LSystemIterator T × LSystemIterator T
  | 0 => p
  | k + 1 => pullFst (pullFstN p k)

theorem pullFstN_snd {T : Type} (p : LSystemIterator T × LSystemIterator T) :
    ∀ k : Nat, (pullFstN p k).2 = p.2 := by
  intro k
  induction k with
  | zero => rfl
  | succ k ih => simp [pullFstN, pullFst, ih]

/- ### Claims -/

/-- C1: past the first pull (`zeroth = false`), each pull returns the
concatenation, in source order, of the rule applied to each symbol of the
current generation; in particular for axiom `[x, y]` generation 1 is
`r x ++ r y`. -/
theorem c1_subsequent_pull_is_ordered_rewrite {T : Type}
    (it : LSystemIterator T) (h : it.zeroth = false)
    (x y : T) (r : T → List T) :
    (it.next).1 = some (it.current_state.bind it.rules) ∧
    genAt (LSystemType.mk [x, y] r) 1 = some (r x ++ r y) := by
  constructor
  · rw [next_of_not_zeroth it h]
  · rw [genAt_eq]
    simp [genFun, List.bind]

theorem c1_witness :
    ((LSystemIterator.mk [0, 1] (fun n => [n, n]) false).next).1
      = some [0, 0, 1, 1] ∧
    genAt (LSystemType.mk [5, 7] (fun n => [n + 1])) 1 = some ([6] ++ [8]) :=
  c1_subsequent_pull_is_ordered_rewrite
    (LSystemIterator.mk [0, 1] (fun n => [n, n]) false) rfl 5 7 (fun n => [n + 1])

/-- C2: the first pull from a fresh producer returns the axiom, and leaves
the internal generation state equal to the axiom. -/
theorem c2_first_pull_is_axiom {T : Type} (l : LSystemType T) :
    (l.iter.next).1 = some l.ax ∧ ((l.iter.next).2).current_state = l.ax := by
  constructor <;> simp [LSystemType.iter, LSystemIterator.next]

/-- C3: `next` returns `Some` in every producer state: the stream is
infinite and never signals completion. -/
theorem c3_never_none {T : Type} (it : LSystemIterator T) :
    ∃ xs : List T, (it.next).1 = some xs := by
  by_cases h : it.zeroth
  · exact ⟨it.current_state, by simp [LSystemIterator.next, h]⟩
  · refine ⟨it.current_state.bind it.rules, ?_⟩
    rw [next_of_not_zeroth it (by simpa using h)]

/-- C4: the algae system yields exactly `[B]`, `[A]`, `[A, B]`, `[A, B, A]`,
`[A, B, A, A, B]` at generations 0 through 4. -/
theorem c4_algae_generations :
    genAt algae_lsystem 0 = some [Algae.B] ∧
    genAt algae_lsystem 1 = some [Algae.A] ∧
    genAt algae_lsystem 2 = some [Algae.A, Algae.B] ∧
    genAt algae_lsystem 3 = some [Algae.A, Algae.B, Algae.A] ∧
    genAt algae_lsystem 4 = some [Algae.A, Algae.B, Algae.A, Algae.A, Algae.B] := by
  refine ⟨rfl, rfl, rfl, rfl, rfl⟩

/-- C5: pulling is deterministic: two producers freshly created from the
same grammar yield the same generation-`n` sequence. -/
theorem c5_determinism {T : Type} (l : LSystemType T)
    (it₁ it₂ : LSystemIterator T)
    (h₁ : it₁ = l.iter) (h₂ : it₂ = l.iter) (n : Nat) :
    nthOutput it₁ n = nthOutput it₂ n := by
  rw [h₁, h₂]

theorem c5_witness :
    nthOutput (LSystemType.iter (LSystemType.mk [0] (fun n => [n, n + 1]))) 2
      = nthOutput (LSystemType.iter (LSystemType.mk [0] (fun n => [n, n + 1]))) 2 :=
  c5_determinism (LSystemType.mk [0] (fun n => [n, n + 1])) _ _ rfl rfl 2

/-- C6: with an empty axiom, every generation is the empty sequence and the
internal state stays empty after every pull. -/
theorem c6_empty_axiom {T : Type} (r : T → List T) (n : Nat) :
    genAt (LSystemType.mk [] r) n = some [] ∧
    ((LSystemType.mk [] r).iter.stepN (n + 1)).current_state = [] := by
  have hg : ∀ m : Nat, genFun r m ([] : List T) = [] := by
    intro m
    induction m with
    | zero => rfl
    | succ m ih => simp [genFun, ih]
  constructor
  · rw [genAt_eq]
    simp [hg n]
  · rw [stepN_iter]
    simp [hg n]

theorem c6_witness :
    genAt (LSystemType.mk ([] : List Nat) (fun n => [n, n])) 3 = some [] ∧
    ((LSystemType.mk ([] : List Nat) (fun n => [n, n])).iter.stepN 4).current_state = [] :=
  c6_empty_axiom (fun n => [n, n]) 3

/-- C7: under the identity rule `s ↦ [s]`, every generation equals the
axiom. -/
theorem c7_identity_rule {T : Type} (r : T → List T)
    (h : ∀ s : T, r s = [s]) (A : List T) (n : Nat) :
    genAt (LSystemType.mk A r) n = some A := by
  have hg : ∀ (m : Nat) (s : List T), genFun r m s = s := by
    intro m
    induction m with
    | zero => intro s; rfl
    | succ m ih =>
        intro s
        simp [genFun, ih s]
        induction s with
        | nil => rfl
        | cons x xs ihs => simp [List.bind, h x, ihs]
  rw [genAt_eq]
  simp [hg n A]

theorem c7_witness :
    genAt (LSystemType.mk [4, 2, 7] (fun s => [s])) 5 = some [4, 2, 7] :=
  c7_identity_rule (fun s => [s]) (fun _ => rfl) [4, 2, 7] 5

/-- C8: for axiom `[A]` and rule `A ↦ [A, A]`, generation `n` has length
`2 ^ n`. -/
theorem c8_growth_rate (n : Nat) :
    Option.map List.length (genAt doubling_lsystem n) = some (2 ^ n) := by
  have hlen : ∀ m : Nat,
      (genFun doubling_lsystem.rules m doubling_lsystem.ax).length = 2 ^ m := by
    intro m
    induction m with
    | zero => rfl
    | succ m ih =>
        have hb : ∀ s : List Doubler,
            (s.bind doubling_lsystem.rules).length = 2 * s.length := by
          intro s
          induction s with
          | nil => rfl
          | cons x xs ihs =>
              simp [List.bind, doubling_lsystem, ihs] at *
              omega
        show (genFun doubling_lsystem.rules (m + 1) doubling_lsystem.ax).length = _
        rw [genFun, hb, ih, pow_succ]
        omega
  rw [genAt_eq]
  simp [hlen n]

/-- C9: creating a producer reads only the grammar's fields (its state is a
copy of the axiom and it shares the rule), and pulling any number of times
from one producer leaves a sibling producer's state — and hence all its
future outputs — unchanged. -/
theorem c9_independence {T : Type} (l : LSystemType T) (k n : Nat) :
    l.iter.current_state = l.ax ∧ l.iter.rules = l.rules ∧
    (pullFstN (l.iter, l.iter) k).2 = l.iter ∧
    nthOutput (pullFstN (l.iter, l.iter) k).2 n = genAt l n := by
  refine ⟨rfl, rfl, pullFstN_snd _ k, ?_⟩
  rw [pullFstN_snd _ k]
  rfl

/-- C10: generation is a homomorphism for axiom concatenation: generation
`n` of axiom `A ++ B` is generation `n` of `A` concatenated with generation
`n` of `B`, under the same rule. -/
theorem c10_append_homomorphism {T : Type} (r : T → List T)
    (A B : List T) (n : Nat) :
    genAt (LSystemType.mk A r) n = some (genFun r n A) ∧
    genAt (LSystemType.mk B r) n = some (genFun r n B) ∧
    genAt (LSystemType.mk (A ++ B) r) n = some (genFun r n A ++ genFun r n B) := by
  refine ⟨genAt_eq _ n, genAt_eq _ n, ?_⟩
  rw [genAt_eq]
  simp [genFun_append r n A B]
